import Mathlib

/-!
Verification of the LLM-Toolkit core against its specification.

The development shallowly embeds, in Lean, the parts of the code base the
claims are about:

* the path-sandboxing layer (getSafePath / isPathSafe in
  src/core/security/index.ts), together with a faithful model of the
  node:path POSIX functions (normalize, resolve, isAbsolute, basename,
  dirname, extname) it relies on, with paths represented as lists of
  characters (one list element per UTF-16 code unit of the JS string;
  every path in this development is ASCII, where the two coincide);
* the tool-calling Orchestrator (src, Orchestrator class): session and
  permission state, the permission protocol, tool-call handling, the
  non-streaming chat loop, and streaming-chunk aggregation.

Asynchronous callbacks (the permission asker, the tool executor) are
modelled as oracles supplied in an environment record; an asker invocation
is indexed by the number of previous invocations, which also models the
fresh correlation id.  Side-effect-free console logging is dropped.
-/

set_option autoImplicit false

namespace NodePath

/-- Split a character list at every occurrence of the separator `c`.
A list with no separator yields one segment; each separator introduces a
segment boundary, so leading, trailing and doubled separators produce
empty segments (matching how node's normalizeString scans a path). -/
def splitChar (c : Char) : List Char → List (List Char)
  | [] => [[]]
  | x :: xs =>
    if x = c then [] :: splitChar c xs
    else
      match splitChar c xs with
      | [] => [[x]]
      | s :: ss => (x :: s) :: ss

/-- Join segments with a '/' between consecutive segments (inverse of
`splitChar '/'` on slash-free segments). -/
def joinSegs : List (List Char) → List Char
  | [] => []
  | [s] => s
  | s :: rest => s ++ '/' :: joinSegs rest

/-- One step of node's normalizeString segment scan.  The accumulator is
the list of already-emitted segments in reverse order.  Empty and '.'
segments are dropped; '..' pops the previous segment when there is one
that is not itself '..', and otherwise is kept only when
`allowAboveRoot` is set. -/
def normStep (allowAboveRoot : Bool) (acc : List (List Char)) (seg : List Char) :
    List (List Char) :=
  if seg = [] ∨ seg = ['.'] then acc
  else if seg = ['.', '.'] then
    match acc with
    | [] => if allowAboveRoot then [['.', '.']] else []
    | last :: rest =>
      if last = ['.', '.'] then (if allowAboveRoot then seg :: acc else acc)
      else rest
  else seg :: acc

/-- node lib/path.js `normalizeString`: resolve '.' and '..' segments and
collapse separators, on POSIX paths. -/
def normalizeString (p : List Char) (allowAboveRoot : Bool) : List Char :=
  joinSegs (((splitChar '/' p).foldl (normStep allowAboveRoot) []).reverse)

/-- node `path.posix.isAbsolute`. -/
def isAbsolute (p : List Char) : Bool :=
  p.head? = some '/'

/-- node `path.posix.normalize`. -/
def normalize (p : List Char) : List Char :=
  if p = [] then ['.']
  else
    let abs := isAbsolute p
    let trail := p.getLast? = some '/'
    let r := normalizeString p (!abs)
    if r = [] then
      if abs then ['/'] else if trail then ['.', '/'] else ['.']
    else
      let r := if trail then r ++ ['/'] else r
      if abs then '/' :: r else r

/-- node `path.posix.resolve(cwd, p)`, where `cwd` plays the role of
`process.cwd()` (so when neither argument is absolute, node's final
`process.cwd()` fallback prepends `cwd` once more). -/
def resolve (cwd p : List Char) : List Char :=
  let joined :=
    if isAbsolute p then p ++ ['/']
    else
      let j1 := if p = [] then [] else p ++ ['/']
      let j2 := if cwd = [] then j1 else cwd ++ '/' :: j1
      if isAbsolute cwd then j2
      else if cwd = [] then j2 else cwd ++ '/' :: j2
  let abs := isAbsolute p || isAbsolute cwd
  let r := normalizeString joined (!abs)
  if abs then '/' :: r
  else if r = [] then ['.'] else r

/-- node `path.posix.basename` (one-argument form): strip trailing
separators, then keep everything after the last remaining separator. -/
def basename (p : List Char) : List Char :=
  (((p.reverse).dropWhile (· = '/')).takeWhile (· ≠ '/')).reverse

/-- node `path.posix.dirname`: ignoring the first character, strip
trailing separators and cut just before the separator run preceding the
last component; degenerate cases give '/' or '.'. -/
def dirname (p : List Char) : List Char :=
  match p with
  | [] => ['.']
  | p0 :: rest =>
    let hasRoot := p0 = '/'
    let rev2 := (((rest.reverse).dropWhile (· = '/')).dropWhile (· ≠ '/'))
    if rev2 = [] then (if hasRoot then ['/'] else ['.'])
    else if hasRoot ∧ rev2.length = 1 then ['/', '/']
    else (p0 :: rest).take rev2.length

/-- node `path.posix.extname`: the suffix of the last path component from
its last dot, except that a dot in first position of the component and
the component ".." yield the empty extension. -/
def extname (p : List Char) : List Char :=
  let part := basename p
  if '.' ∈ part then
    let afterRev := (part.reverse).takeWhile (· ≠ '.')
    let k := part.length - afterRev.length - 1
    if k = 0 then [] else if part = ['.', '.'] then [] else part.drop k
  else []

end NodePath

namespace Security

open NodePath

/-- JS `String.prototype.includes`: some suffix of the haystack has the
needle as a prefix. -/
def includesSub (hay needle : List Char) : Bool :=
  (hay.tails).any (fun t => needle.isPrefixOf t)

/-- Modelled from the spec: the security Constant module (blacklistedFiles)
is not among the provided sources.  Per §4.4 of the spec it is an "exact
filename blacklist (e.g. credential files)". -/
def blacklistedFiles : List (List Char) :=
  [".env".toList, "credentials.json".toList, "id_rsa".toList]

/-- Modelled from the spec: the security Constant module (blacklistedDir)
is not among the provided sources.  Per §4.4 of the spec it is a
"containing-directory blacklist (e.g. version-control or dependency
directories)". -/
def blacklistedDir : List (List Char) :=
  [".git".toList, "node_modules".toList]

/-- Modelled from the spec: the security Constant module (blacklistedExt)
is not among the provided sources.  Per §4.4 of the spec it is an
"extension blacklist (e.g. key files)". -/
def blacklistedExt : List (List Char) :=
  [".pem".toList, ".key".toList]

/-- Modelled from the spec: the security Constant module
(dangerousPatterns) is not among the provided sources.  Per §4.4 of the
spec it is "a list of dangerous-pattern matchers (regex) run against the
full path"; each matcher is modelled as a boolean predicate on the full
resolved path. -/
def dangerousPatterns : List (List Char → Bool) :=
  [fun p => includesSub p (".ssh".toList), fun p => includesSub p ("/etc/".toList)]

/-- The test performed by the regex `^[A-Za-z]:[\\/]` in getSafePath:
an ASCII letter, a colon, then a slash or backslash, at the start of the
candidate. -/
def driveTest (p : List Char) : Bool :=
  match p with
  | a :: b :: c :: _ => a.isAlpha && b = ':' && (c = '/' || c = '\\')
  | _ => false

/-- isPathSafe from src/core/security/index.ts: the resolved path passes
the filename, containing-directory and extension blacklists and matches
none of the dangerous patterns. -/
def isPathSafe (path : List Char) : Bool :=
  let fileName := basename path
  let fileExtension := extname path
  let directoryName := basename (dirname path)
  if blacklistedFiles.contains fileName then false
  else if blacklistedDir.contains directoryName then false
  else if blacklistedExt.contains fileExtension then false
  else if (dangerousPatterns.map (fun pat => pat path)).any id then false
  else true

/-- The SecurityPathResult interface: either a success carrying the
resolved path, or a failure carrying a message. -/
inductive SecurityPathResult where
  | ok (path : String)
  | err (message : String)
deriving DecidableEq, Repr

/-- getSafePath from src/core/security/index.ts, with the process working
directory passed explicitly as `cwd` (the code reads it via
`process.cwd()` at the start of the call). -/
def getSafePath (cwd path : String) : SecurityPathResult :=
  let cwdL := cwd.toList
  let p := path.toList
  if driveTest p then .err "Windows drive paths are not allowed"
  else if isAbsolute p then
    let resolvedPath := normalize p
    if !(cwdL.isPrefixOf resolvedPath) then
      .err "Absolute path outside project directory"
    else if !(isPathSafe resolvedPath) then
      .err "Path contains dangerous files or patterns"
    else if resolvedPath.length > 500 then
      .err "Path is too long (maximum 500 characters)"
    else .ok (String.mk resolvedPath)
  else
    let normalizedPath := normalize p
    let resolvedPath := resolve cwdL normalizedPath
    if includesSub resolvedPath ('.' :: '.' :: []) || includesSub resolvedPath ('~' :: []) then
      .err "Path contains traversal patterns"
    else if !(cwdL.isPrefixOf resolvedPath) then
      .err "Path resolved outside project directory"
    else if !(isPathSafe resolvedPath) then
      .err "Path contains dangerous files or patterns"
    else if resolvedPath.length > 500 then
      .err "Path is too long (maximum 500 characters)"
    else .ok (String.mk resolvedPath)

/-- The spec's notion (§4.1, §8) of a path falling within the trusted
root: it is the root itself or lies beneath it in the directory tree.
Stated from the spec's words, for comparison with what the code checks. -/
def strictlyWithinRoot (root p : String) : Bool :=
  p = root || ((root ++ "/").toList).isPrefixOf p.toList

end Security

namespace Orch

/-- A tool-call payload as parsed from the model reply:
`{ function?: { name?, arguments? } }`.  Arguments are modelled as a
string-keyed association list (the orchestrator never inspects them). -/
structure FnPart where
  name : Option String := none
  arguments : Option (List (String × String)) := none
deriving DecidableEq, Repr

/-- An element of an assistant message's tool_calls array. -/
structure ToolCallObj where
  function : Option FnPart := none
deriving DecidableEq, Repr

/-- ChatMessage: role, nullable content, optional tool name (tool role),
optional tool-call list (assistant role). -/
structure ChatMessage where
  role : String
  content : Option String := none
  tool_name : Option String := none
  tool_calls : Option (List ToolCallObj) := none
deriving DecidableEq, Repr

/-- A non-streaming chat reply from the LLM client. -/
structure ResponseChat where
  message : Option ChatMessage := none
  thinking : Option String := none
deriving DecidableEq, Repr

/-- One chunk of a streaming chat reply. -/
structure ResponseChatStream where
  message : Option ChatMessage := none
  thinking : Option String := none
  done : Bool := false
deriving DecidableEq, Repr

/-- The permission request handed to the asker.  The requestId produced
by generateId('permission') is modelled by the asker invocation index. -/
structure PermissionRequest where
  sessionId : String
  toolName : String
  arguments : List (String × String)
  requestId : Nat
deriving DecidableEq, Repr

/-- The asker's reply: an action string (expected values: approve,
allow_all, deny — but any runtime string can arrive). -/
structure PermissionResponse where
  action : String
deriving DecidableEq, Repr

/-- Events emitted through the option callbacks, in emission order. -/
inductive OrchEvent where
  | toolCall (sessionId toolName : String) (arguments : List (String × String))
  | toolResult (sessionId toolName result : String)
  | abortEvt (sessionId reason : String)
  | message (m : ChatMessage)
  | thinking (t : String)
deriving DecidableEq, Repr

/-- The orchestrator's injected collaborators: the optional permission
asker (indexed by the number of previous asker invocations; a `.error`
value models the asker's promise rejecting or throwing), the tool
executor (the tool-registry collaborator, which always returns a result
string), and the ContextSys system prompt. -/
structure OrchEnv where
  asker : Option (Nat → PermissionRequest → Except Unit PermissionResponse)
  execTool : String → List (String × String) → String
  sysPrompt : String

/-- The orchestrator's mutable fields: the activeSessions map, the
sessionPermissions map (allowAll flag, keyed by session id), the
ChatManager sessions map (session id to message history), the number of
asker invocations made so far, and whether abort() has been called on the
single shared LLM client. -/
structure OrchState where
  activeSessions : List (String × Bool) := []
  sessionPermissions : List (String × Bool) := []
  sessions : List (String × List ChatMessage) := []
  askCount : Nat := 0
  clientAborted : Bool := false
deriving DecidableEq, Repr

/-- JS `Map.get`: the value bound to the first occurrence of the key. -/
def mapGet {α : Type} (l : List (String × α)) (k : String) : Option α :=
  match l with
  | [] => none
  | (k', v) :: rest => if k' = k then some v else mapGet rest k

/-- JS `Map.set`: replace the binding when the key is present, append it
otherwise. -/
def mapSet {α : Type} (l : List (String × α)) (k : String) (v : α) :
    List (String × α) :=
  match l with
  | [] => [(k, v)]
  | (k', v') :: rest => if k' = k then (k, v) :: rest else (k', v') :: mapSet rest k v

/-- `(this.activeSessions.get(sessionId) ?? false) === true`. -/
def activeOf (st : OrchState) (sid : String) : Bool :=
  (mapGet st.activeSessions sid).getD false

/-- `this.sessionPermissions.get(sessionId)?.allowAll === true`. -/
def allowAllOf (st : OrchState) (sid : String) : Bool :=
  (mapGet st.sessionPermissions sid).getD false

/-- ChatManager.getMessages. -/
def getMessages (st : OrchState) (sid : String) : Option (List ChatMessage) :=
  mapGet st.sessions sid

/-- ChatManager.addMessage: push onto the session's message array;
unknown sessions are a silent no-op (the method returns false, a value
the orchestrator ignores). -/
def addMessage (st : OrchState) (sid : String) (m : ChatMessage) : OrchState :=
  match mapGet st.sessions sid with
  | none => st
  | some msgs => { st with sessions := mapSet st.sessions sid (msgs ++ [m]) }

/-- Orchestrator.abortSession: mark the one session inactive and abort
the shared client. -/
def abortSession (st : OrchState) (sid : String) : OrchState :=
  { st with activeSessions := mapSet st.activeSessions sid false, clientAborted := true }

/-- Orchestrator.abort: clear the whole activeSessions map and abort the
shared client. -/
def abortAll (st : OrchState) : OrchState :=
  { st with activeSessions := [], clientAborted := true }

/-- Orchestrator.processPermissionResponse: approve and allow_all map to
true (allow_all also records the session flag), deny and every other
action string map to false. -/
def processPermissionResponse (st : OrchState) (sid : String)
    (response : PermissionResponse) (toolName : String) : Bool × OrchState :=
  if response.action = "approve" then (true, st)
  else if response.action = "allow_all" then
    (true, { st with sessionPermissions := mapSet st.sessionPermissions sid true })
  else if response.action = "deny" then (false, st)
  else (false, st)

/-- Orchestrator.requestPermission: session-level allow-all short
circuit, default approval when no asker is configured, otherwise invoke
the asker and map its decision; a rejected asker promise is caught and
treated as a denial. -/
def requestPermission (env : OrchEnv) (st : OrchState) (sid toolName : String)
    (args : List (String × String)) : Bool × OrchState :=
  if allowAllOf st sid then (true, st)
  else
    match env.asker with
    | none => (true, st)
    | some ask =>
      let req : PermissionRequest :=
        { sessionId := sid, toolName := toolName, arguments := args,
          requestId := st.askCount }
      let st1 := { st with askCount := st.askCount + 1 }
      match ask st.askCount req with
      | .error _ => (false, st1)
      | .ok response => processPermissionResponse st1 sid response toolName

/-- Orchestrator.extractToolCallData. -/
def extractToolCallData (tc : ToolCallObj) : String × List (String × String) :=
  ((tc.function.bind (fun f => f.name)).getD "",
   (tc.function.bind (fun f => f.arguments)).getD [])

/-- Orchestrator.executeTool: run the executor, emit the tool-result
event and append the tool-role message. -/
def executeTool (env : OrchEnv) (st : OrchState) (sid toolName : String)
    (args : List (String × String)) (evs : List OrchEvent) :
    OrchState × List OrchEvent :=
  let result := env.execTool toolName args
  let evs1 := evs ++ [.toolResult sid toolName result]
  let st1 := addMessage st sid
    { role := "tool", content := some result, tool_name := some toolName }
  (st1, evs1)

/-- Orchestrator.handlePermissionDenied: emit the abort event and mark
the session inactive. -/
def handlePermissionDenied (st : OrchState) (sid : String) (evs : List OrchEvent) :
    OrchState × List OrchEvent :=
  ({ st with activeSessions := mapSet st.activeSessions sid false },
   evs ++ [.abortEvt sid "Permission denied by user"])

/-- Orchestrator.handleToolCalls: process the turn's tool calls in
order; each one emits the tool-call event, goes through the permission
gate, and on approval is executed; a denial routes through
handlePermissionDenied and returns, skipping every later call; an
already-inactive session breaks out of the loop. -/
def handleToolCalls (env : OrchEnv) (sid : String) :
    List ToolCallObj → OrchState → List OrchEvent → OrchState × List OrchEvent
  | [], st, evs => (st, evs)
  | tc :: rest, st, evs =>
    if activeOf st sid = false then (st, evs)
    else
      let d := extractToolCallData tc
      let evs1 := evs ++ [.toolCall sid d.1 d.2]
      let r := requestPermission env st sid d.1 d.2
      if r.1 then
        let e := executeTool env r.2 sid d.1 d.2 evs1
        handleToolCalls env sid rest e.1 e.2
      else
        handlePermissionDenied r.2 sid evs1

/-- Orchestrator.processNonStreamingResponse: append and announce the
assistant message, run its tool calls when it carries any, then emit the
thinking event when thinking text is present. -/
def processNonStreamingResponse (env : OrchEnv) (sid : String)
    (response : ResponseChat) (st : OrchState) (evs : List OrchEvent) :
    OrchState × List OrchEvent :=
  let r :=
    match response.message with
    | none => (st, evs)
    | some m =>
      let st1 := addMessage st sid m
      let evs1 := evs ++ [.message m]
      match m.tool_calls with
      | some tcs =>
        if tcs.length > 0 then handleToolCalls env sid tcs st1 evs1 else (st1, evs1)
      | none => (st1, evs1)
  match response.thinking with
  | some t => if t.length > 0 then (r.1, r.2 ++ [.thinking t]) else r
  | none => r

/-- Whether a non-streaming reply makes the chat loop run another
iteration: `message?.tool_calls !== undefined && length > 0`. -/
def responseHasToolCalls (response : ResponseChat) : Bool :=
  match response.message with
  | some m => match m.tool_calls with
    | some tcs => tcs.length > 0
    | none => false
  | none => false

/-- The while-loop of Orchestrator.processChatLoop in the non-streaming
case.  The external LLM client is modelled by the script `responses`,
one reply per request the loop issues; the loop also stops when the
session has been marked inactive. -/
def chatLoopAux (env : OrchEnv) (sid : String) :
    List ResponseChat → OrchState → List OrchEvent → OrchState × List OrchEvent
  | [], st, evs => (st, evs)
  | response :: rest, st, evs =>
    if activeOf st sid = false then (st, evs)
    else
      let r := processNonStreamingResponse env sid response st evs
      if responseHasToolCalls response then chatLoopAux env sid rest r.1 r.2
      else (r.1, r.2)

/-- Orchestrator.processChatLoop (non-streaming): append the user
message, inject the ContextSys system prompt when the history has no
system message yet, then iterate request rounds until a reply carries no
tool calls. -/
def processChatLoop (env : OrchEnv) (sid : String) (message : String)
    (responses : List ResponseChat) (st : OrchState) : OrchState × List OrchEvent :=
  let st1 := addMessage st sid { role := "user", content := some message }
  let sessionMessages := (getMessages st1 sid).getD []
  let st2 :=
    if sessionMessages.any (fun m => m.role = "system") then st1
    else addMessage st1 sid { role := "system", content := some env.sysPrompt }
  chatLoopAux env sid responses st2 []

/-- Orchestrator.updateCurrentMessage: a chunk without a message leaves
the accumulator alone; the first chunk with a message seeds it; later
content deltas are appended to the accumulated content and a later
tool_calls payload replaces the accumulated list. -/
def updateCurrentMessage (chunk : ResponseChatStream)
    (currentMessage : Option ChatMessage) : Option ChatMessage :=
  match chunk.message with
  | none => currentMessage
  | some m =>
    match currentMessage with
    | none => some m
    | some c =>
      let c1 :=
        match m.content with
        | none => c
        | some s => { c with content := some ((c.content.getD "") ++ s) }
      let c2 :=
        match m.tool_calls with
        | none => c1
        | some tcs => { c1 with tool_calls := some tcs }
      some c2

/-- The currentMessage accumulation of
Orchestrator.processStreamingResponse over one turn's chunk sequence. -/
def aggregateChunks (chunks : List ResponseChatStream) : Option ChatMessage :=
  chunks.foldl (fun cur chunk => updateCurrentMessage chunk cur) none

/-- The asker outcome requestPermission would observe when it consults
the asker: the configured asker applied to the next invocation index and
the permission request it builds. -/
def askOutcome (env : OrchEnv) (st : OrchState) (sid toolName : String)
    (args : List (String × String)) : Option (Except Unit PermissionResponse) :=
  env.asker.map (fun ask => ask st.askCount
    { sessionId := sid, toolName := toolName, arguments := args,
      requestId := st.askCount })

/-- Number of abort events in an emission trace. -/
def countAborts (evs : List OrchEvent) : Nat :=
  (evs.filter (fun e => match e with | .abortEvt _ _ => true | _ => false)).length

/-- Number of tool-result events in an emission trace (one per executed
tool call). -/
def countToolResults (evs : List OrchEvent) : Nat :=
  (evs.filter (fun e => match e with | .toolResult _ _ _ => true | _ => false)).length

/-- Number of tool-role messages in a session's history. -/
def toolMsgCount (st : OrchState) (sid : String) : Nat :=
  (((getMessages st sid).getD []).filter (fun m => m.role = "tool")).length

end Orch

namespace Demo

open Orch

/-- A concrete tool call used by the concrete scenarios. -/
def tcRead : ToolCallObj :=
  { function := some { name := some "FileRead", arguments := some [("filePath", "a.txt")] } }

/-- An environment whose asker always approves and whose executor
returns a fixed string. -/
def approveEnv : OrchEnv :=
  { asker := some (fun _ _ => .ok { action := "approve" }),
    execTool := fun _ _ => "tool-ok",
    sysPrompt := "SYS" }

/-- An environment whose asker denies from its second invocation on. -/
def denySecondEnv : OrchEnv :=
  { asker := some (fun k _ =>
      if k < 1 then .ok { action := "approve" } else .ok { action := "deny" }),
    execTool := fun _ _ => "tool-ok",
    sysPrompt := "SYS" }

/-- A state holding one active, empty session named "s". -/
def freshSt : OrchState :=
  { activeSessions := [("s", true)], sessions := [("s", [])] }

/-- The spec's §8 stream-chunk scenario:
[{content:"Hel"}, {content:"lo", done:false}, {done:true}]. -/
def helloChunks : List ResponseChatStream :=
  [ { message := some { role := "assistant", content := some "Hel" } },
    { message := some { role := "assistant", content := some "lo" }, done := false },
    { done := true } ]

/-- The assistant reply that requests one tool call. -/
def callMsg : ChatMessage :=
  { role := "assistant", content := some "calling", tool_calls := some [tcRead] }

/-- The two scripted replies of the §8 chat scenario: one tool call,
then a plain final answer. -/
def chatScript : List ResponseChat :=
  [ { message := some callMsg },
    { message := some { role := "assistant", content := some "done" } } ]

end Demo

open NodePath Security Orch Demo

section MapLemmas

theorem mapGet_mapSet {α : Type} (l : List (String × α)) (k k' : String) (v : α) :
    mapGet (mapSet l k v) k' = if k = k' then some v else mapGet l k' := by
  induction l with
  | nil =>
    by_cases h : k = k' <;> simp [mapSet, mapGet, h]
  | cons hd tl ih =>
    obtain ⟨k₀, v₀⟩ := hd
    by_cases h0 : k₀ = k
    · subst h0
      by_cases h : k₀ = k' <;> simp [mapSet, mapGet, h]
    · by_cases h : k₀ = k'
      · subst h
        simp [mapSet, mapGet, h0, Ne.symm h0]
      · simp [mapSet, mapGet, h0, h, ih]

theorem activeOf_abortSession_self (st : OrchState) (sid : String) :
    activeOf (abortSession st sid) sid = false := by
  simp [activeOf, abortSession, mapGet_mapSet]

theorem activeOf_abortSession_other (st : OrchState) (s1 s2 : String) (h : s2 ≠ s1) :
    activeOf (abortSession st s1) s2 = activeOf st s2 := by
  simp [activeOf, abortSession, mapGet_mapSet, Ne.symm h]

end MapLemmas

section StateLemmas

theorem addMessage_activeSessions (st : OrchState) (sid : String) (m : ChatMessage) :
    (addMessage st sid m).activeSessions = st.activeSessions := by
  unfold addMessage
  cases mapGet st.sessions sid <;> rfl

theorem addMessage_sessionPermissions (st : OrchState) (sid : String) (m : ChatMessage) :
    (addMessage st sid m).sessionPermissions = st.sessionPermissions := by
  unfold addMessage
  cases mapGet st.sessions sid <;> rfl

theorem addMessage_askCount (st : OrchState) (sid : String) (m : ChatMessage) :
    (addMessage st sid m).askCount = st.askCount := by
  unfold addMessage
  cases mapGet st.sessions sid <;> rfl

theorem getMessages_addMessage_same (st : OrchState) (sid : String) (m : ChatMessage) :
    getMessages (addMessage st sid m) sid =
      (getMessages st sid).map (fun l => l ++ [m]) := by
  unfold addMessage getMessages
  cases h : mapGet st.sessions sid with
  | none => simp [h]
  | some msgs => simp [h, mapGet_mapSet]

theorem allowAllOf_perm_set (st : OrchState) (sid s : String) (h : allowAllOf st sid = true) :
    allowAllOf
      { st with sessionPermissions := mapSet st.sessionPermissions s true } sid = true := by
  unfold allowAllOf at *
  rw [mapGet_mapSet]
  split <;> simp_all

theorem processPermissionResponse_allowAll_preserved (st : OrchState) (sid s toolName : String)
    (r : PermissionResponse) (h : allowAllOf st sid = true) :
    allowAllOf (processPermissionResponse st s r toolName).2 sid = true := by
  unfold processPermissionResponse
  split
  · exact h
  · split
    · exact allowAllOf_perm_set st sid s h
    · split <;> exact h

theorem requestPermission_allowAll_preserved (env : OrchEnv) (st : OrchState)
    (sid s toolName : String) (args : List (String × String))
    (h : allowAllOf st sid = true) :
    allowAllOf (requestPermission env st s toolName args).2 sid = true := by
  unfold requestPermission
  split
  · exact h
  · cases env.asker with
    | none => exact h
    | some ask =>
      simp only
      split
      · exact h
      · exact processPermissionResponse_allowAll_preserved _ sid s toolName _ h

theorem executeTool_allowAll_preserved (env : OrchEnv) (st : OrchState)
    (sid s toolName : String) (args : List (String × String)) (evs : List OrchEvent)
    (h : allowAllOf st sid = true) :
    allowAllOf (executeTool env st s toolName args evs).1 sid = true := by
  unfold executeTool allowAllOf
  simp only [addMessage_sessionPermissions]
  exact h

theorem handleToolCalls_allowAll_preserved (env : OrchEnv) (sid s : String) :
    ∀ (tcs : List ToolCallObj) (st : OrchState) (evs : List OrchEvent),
    allowAllOf st sid = true →
    allowAllOf (handleToolCalls env s tcs st evs).1 sid = true := by
  intro tcs
  induction tcs with
  | nil => intro st evs h; exact h
  | cons tc rest ih =>
    intro st evs h
    rw [handleToolCalls]
    split
    · exact h
    · simp only
      split
      · exact ih _ _ (executeTool_allowAll_preserved env _ sid s _ _ _
          (requestPermission_allowAll_preserved env st sid s _ _ h))
      · unfold handlePermissionDenied allowAllOf
        simp only
        exact requestPermission_allowAll_preserved env st sid s _ _ h

theorem thinking_branch_fst (r : OrchState × List OrchEvent) (th : Option String) :
    (match th with
      | some t => if t.length > 0 then (r.1, r.2 ++ [OrchEvent.thinking t]) else r
      | none => r).1 = r.1 := by
  cases th with
  | none => rfl
  | some t => by_cases h : t.length > 0 <;> simp [h]

theorem processNonStreamingResponse_fst (env : OrchEnv) (s : String)
    (response : ResponseChat) (st : OrchState) (evs : List OrchEvent) :
    (processNonStreamingResponse env s response st evs).1 =
      match response.message with
      | none => st
      | some m =>
        match m.tool_calls with
        | none => addMessage st s m
        | some tcs =>
          if tcs.length > 0 then
            (handleToolCalls env s tcs (addMessage st s m) (evs ++ [.message m])).1
          else addMessage st s m := by
  unfold processNonStreamingResponse
  rw [thinking_branch_fst]
  cases response.message with
  | none => rfl
  | some m =>
    cases htc : m.tool_calls with
    | none => simp [htc]
    | some tcs =>
      simp only [htc]
      split <;> rfl

theorem processNonStreamingResponse_allowAll_preserved (env : OrchEnv) (sid s : String)
    (response : ResponseChat) (st : OrchState) (evs : List OrchEvent)
    (h : allowAllOf st sid = true) :
    allowAllOf (processNonStreamingResponse env s response st evs).1 sid = true := by
  have haddm : ∀ (m : ChatMessage) (st' : OrchState), allowAllOf st' sid = true →
      allowAllOf (addMessage st' s m) sid = true := by
    intro m st' h'
    unfold allowAllOf
    rw [addMessage_sessionPermissions]
    exact h'
  rw [processNonStreamingResponse_fst]
  cases response.message with
  | none => exact h
  | some m =>
    cases htc : m.tool_calls with
    | none =>
      simp only [htc]
      exact haddm m st h
    | some tcs =>
      simp only [htc]
      split
      · exact handleToolCalls_allowAll_preserved env sid s tcs _ _ (haddm m st h)
      · exact haddm m st h

theorem chatLoopAux_allowAll_preserved (env : OrchEnv) (sid s : String) :
    ∀ (responses : List ResponseChat) (st : OrchState) (evs : List OrchEvent),
    allowAllOf st sid = true →
    allowAllOf (chatLoopAux env s responses st evs).1 sid = true := by
  intro responses
  induction responses with
  | nil => intro st evs h; exact h
  | cons r rest ih =>
    intro st evs h
    rw [chatLoopAux]
    split
    · exact h
    · simp only
      split
      · exact ih _ _ (processNonStreamingResponse_allowAll_preserved env sid s r st evs h)
      · exact processNonStreamingResponse_allowAll_preserved env sid s r st evs h

theorem processChatLoop_allowAll_preserved (env : OrchEnv) (sid s message : String)
    (responses : List ResponseChat) (st : OrchState)
    (h : allowAllOf st sid = true) :
    allowAllOf (processChatLoop env s message responses st).1 sid = true := by
  unfold processChatLoop
  have h1 : allowAllOf (addMessage st s { role := "user", content := some message }) sid
      = true := by
    unfold allowAllOf
    rw [addMessage_sessionPermissions]
    exact h
  simp only
  split
  · exact chatLoopAux_allowAll_preserved env sid s responses _ _ h1
  · refine chatLoopAux_allowAll_preserved env sid s responses _ _ ?_
    unfold allowAllOf
    rw [addMessage_sessionPermissions]
    exact h1

end StateLemmas

section DenyLemmas

theorem countAborts_append (a b : List OrchEvent) :
    countAborts (a ++ b) = countAborts a + countAborts b := by
  simp [countAborts, List.filter_append]

theorem countToolResults_append (a b : List OrchEvent) :
    countToolResults (a ++ b) = countToolResults a + countToolResults b := by
  simp [countToolResults, List.filter_append]

theorem countAborts_toolCall (sid t : String) (a : List (String × String)) :
    countAborts [OrchEvent.toolCall sid t a] = 0 := rfl

theorem countAborts_toolResult (sid t r : String) :
    countAborts [OrchEvent.toolResult sid t r] = 0 := rfl

theorem countAborts_abortEvt (sid r : String) :
    countAborts [OrchEvent.abortEvt sid r] = 1 := rfl

theorem countToolResults_toolCall (sid t : String) (a : List (String × String)) :
    countToolResults [OrchEvent.toolCall sid t a] = 0 := rfl

theorem countToolResults_toolResult (sid t r : String) :
    countToolResults [OrchEvent.toolResult sid t r] = 1 := rfl

theorem countToolResults_abortEvt (sid r : String) :
    countToolResults [OrchEvent.abortEvt sid r] = 0 := rfl

theorem executeTool_eq (env : OrchEnv) (st : OrchState) (sid t : String)
    (a : List (String × String)) (evs : List OrchEvent) :
    executeTool env st sid t a evs =
      (addMessage st sid
        { role := "tool", content := some (env.execTool t a), tool_name := some t },
       evs ++ [.toolResult sid t (env.execTool t a)]) := rfl

theorem toolMsgCount_addMessage_tool (st : OrchState) (sid : String)
    (m : ChatMessage) (hm : m.role = "tool") (hs : (getMessages st sid).isSome) :
    toolMsgCount (addMessage st sid m) sid = toolMsgCount st sid + 1 := by
  unfold toolMsgCount
  rw [getMessages_addMessage_same]
  obtain ⟨msgs, hmsgs⟩ := Option.isSome_iff_exists.mp hs
  simp [hmsgs, List.filter_append, hm]

theorem getMessages_addMessage_isSome (st : OrchState) (sid : String) (m : ChatMessage)
    (hs : (getMessages st sid).isSome) :
    (getMessages (addMessage st sid m) sid).isSome := by
  rw [getMessages_addMessage_same]
  obtain ⟨msgs, hmsgs⟩ := Option.isSome_iff_exists.mp hs
  simp [hmsgs]

theorem handleToolCalls_cons_active (env : OrchEnv) (sid : String) (tc : ToolCallObj)
    (rest : List ToolCallObj) (st : OrchState) (evs : List OrchEvent)
    (hact : activeOf st sid = true) :
    handleToolCalls env sid (tc :: rest) st evs =
      (if (requestPermission env st sid (extractToolCallData tc).1
            (extractToolCallData tc).2).1 then
        handleToolCalls env sid rest
          (executeTool env
            (requestPermission env st sid (extractToolCallData tc).1
              (extractToolCallData tc).2).2
            sid (extractToolCallData tc).1 (extractToolCallData tc).2
            (evs ++ [.toolCall sid (extractToolCallData tc).1
              (extractToolCallData tc).2])).1
          (executeTool env
            (requestPermission env st sid (extractToolCallData tc).1
              (extractToolCallData tc).2).2
            sid (extractToolCallData tc).1 (extractToolCallData tc).2
            (evs ++ [.toolCall sid (extractToolCallData tc).1
              (extractToolCallData tc).2])).2
      else
        handlePermissionDenied
          (requestPermission env st sid (extractToolCallData tc).1
            (extractToolCallData tc).2).2
          sid
          (evs ++ [.toolCall sid (extractToolCallData tc).1
            (extractToolCallData tc).2])) := by
  rw [handleToolCalls]
  simp [hact]

theorem handleToolCalls_denied_aux (env : OrchEnv) (sid : String)
    (ask : Nat → PermissionRequest → Except Unit PermissionResponse)
    (hask : env.asker = some ask) :
    ∀ (i : Nat) (tcs : List ToolCallObj) (st : OrchState) (evs : List OrchEvent),
    (∀ (k : Nat) (req : PermissionRequest), k < i →
      ask (st.askCount + k) req = .ok { action := "approve" }) →
    (∀ req : PermissionRequest, ask (st.askCount + i) req = .ok { action := "deny" }) →
    allowAllOf st sid = false →
    activeOf st sid = true →
    i < tcs.length →
    (getMessages st sid).isSome →
    countAborts (handleToolCalls env sid tcs st evs).2 = countAborts evs + 1 ∧
    countToolResults (handleToolCalls env sid tcs st evs).2 = countToolResults evs + i ∧
    activeOf (handleToolCalls env sid tcs st evs).1 sid = false ∧
    toolMsgCount (handleToolCalls env sid tcs st evs).1 sid = toolMsgCount st sid + i := by
  intro i
  induction i with
  | zero =>
    intro tcs st evs happ hdeny hall hact hlen hsess
    match tcs, hlen with
    | tc :: rest, hlen2 =>
      rw [handleToolCalls_cons_active env sid tc rest st evs hact]
      have hreq : requestPermission env st sid (extractToolCallData tc).1
          (extractToolCallData tc).2 = (false, { st with askCount := st.askCount + 1 }) := by
        unfold requestPermission
        simp only [hall, Bool.false_eq_true, if_false, hask]
        have hd := hdeny
          { sessionId := sid, toolName := (extractToolCallData tc).1,
            arguments := (extractToolCallData tc).2, requestId := st.askCount }
        rw [Nat.add_zero] at hd
        rw [hd]
        simp [processPermissionResponse]
      rw [hreq]
      rw [if_neg (by simp)]
      unfold handlePermissionDenied
      refine ⟨?_, ?_, ?_, ?_⟩
      · simp [countAborts, List.filter_append, List.filter]
      · simp [countToolResults, List.filter_append, List.filter]
      · simp [activeOf, mapGet_mapSet]
      · simp [toolMsgCount, getMessages]
  | succ j ih =>
    intro tcs st evs happ hdeny hall hact hlen hsess
    match tcs, hlen with
    | tc :: rest, hlen2 =>
      rw [handleToolCalls_cons_active env sid tc rest st evs hact]
      have hreq : requestPermission env st sid (extractToolCallData tc).1
          (extractToolCallData tc).2 = (true, { st with askCount := st.askCount + 1 }) := by
        unfold requestPermission
        simp only [hall, Bool.false_eq_true, if_false, hask]
        have ha := happ 0
          { sessionId := sid, toolName := (extractToolCallData tc).1,
            arguments := (extractToolCallData tc).2, requestId := st.askCount }
          (Nat.succ_pos j)
        rw [Nat.add_zero] at ha
        rw [ha]
        simp [processPermissionResponse]
      rw [hreq]
      rw [if_pos rfl]
      rw [executeTool_eq]
      simp only
      set st1 : OrchState := { st with askCount := st.askCount + 1 } with hst1
      set tmsg : ChatMessage :=
        { role := "tool",
          content := some (env.execTool (extractToolCallData tc).1 (extractToolCallData tc).2),
          tool_name := some (extractToolCallData tc).1 } with htmsg
      set st2 : OrchState := addMessage st1 sid tmsg with hst2
      have hcnt2 : st2.askCount = st.askCount + 1 := by
        rw [hst2, addMessage_askCount, hst1]
      have happ' : ∀ (k : Nat) (req : PermissionRequest), k < j →
          ask (st2.askCount + k) req = .ok { action := "approve" } := by
        intro k req hk
        rw [hcnt2]
        have : st.askCount + 1 + k = st.askCount + (k + 1) := by omega
        rw [this]
        exact happ (k + 1) req (by omega)
      have hdeny' : ∀ req : PermissionRequest,
          ask (st2.askCount + j) req = .ok { action := "deny" } := by
        intro req
        rw [hcnt2]
        have : st.askCount + 1 + j = st.askCount + (j + 1) := by omega
        rw [this]
        exact hdeny req
      have hall' : allowAllOf st2 sid = false := by
        unfold allowAllOf
        rw [hst2, addMessage_sessionPermissions, hst1]
        exact hall
      have hact' : activeOf st2 sid = true := by
        unfold activeOf
        rw [hst2, addMessage_activeSessions, hst1]
        exact hact
      have hsess1 : (getMessages st1 sid).isSome := hsess
      have hsess' : (getMessages st2 sid).isSome :=
        getMessages_addMessage_isSome st1 sid tmsg hsess1
      obtain ⟨h1, h2, h3, h4⟩ := ih rest st2
        ((evs ++ [.toolCall sid (extractToolCallData tc).1 (extractToolCallData tc).2]) ++
          [.toolResult sid (extractToolCallData tc).1
            (env.execTool (extractToolCallData tc).1 (extractToolCallData tc).2)])
        happ' hdeny' hall' hact' (by rw [List.length_cons] at hlen2; omega) hsess'
      have htm2 : toolMsgCount st2 sid = toolMsgCount st sid + 1 := by
        rw [hst2]
        have : toolMsgCount st1 sid = toolMsgCount st sid := rfl
        rw [toolMsgCount_addMessage_tool st1 sid tmsg (by rw [htmsg]) hsess1, this]
      refine ⟨?_, ?_, h3, ?_⟩
      · rw [h1]
        simp [countAborts, List.filter_append, List.filter]
      · rw [h2]
        simp [countToolResults, List.filter_append, List.filter]
        omega
      · rw [h4, htm2]
        omega

end DenyLemmas

/-- C5: in a tool-call turn whose i-th permission request is denied (the
asker approves the first i requests and denies the next one), the first i
calls execute and no later one does — the trace carries exactly i
tool-result events and exactly one abort event, exactly i tool-role
messages are appended, and the session's liveness flag ends up false. -/
theorem claim_C5_denial_short_circuits_turn (env : OrchEnv) (sid : String)
    (ask : Nat → PermissionRequest → Except Unit PermissionResponse)
    (i : Nat) (tcs : List ToolCallObj) (st : OrchState)
    (hask : env.asker = some ask)
    (happ : ∀ (k : Nat) (req : PermissionRequest), k < i →
      ask (st.askCount + k) req = .ok { action := "approve" })
    (hdeny : ∀ req : PermissionRequest,
      ask (st.askCount + i) req = .ok { action := "deny" })
    (hall : allowAllOf st sid = false)
    (hact : activeOf st sid = true)
    (hlen : i < tcs.length)
    (hsess : (getMessages st sid).isSome) :
    countAborts (handleToolCalls env sid tcs st []).2 = 1 ∧
    countToolResults (handleToolCalls env sid tcs st []).2 = i ∧
    activeOf (handleToolCalls env sid tcs st []).1 sid = false ∧
    toolMsgCount (handleToolCalls env sid tcs st []).1 sid = toolMsgCount st sid + i := by
  have h := handleToolCalls_denied_aux env sid ask hask i tcs st []
    happ hdeny hall hact hlen hsess
  simpa [countAborts, countToolResults] using h

theorem claim_C5_witness :
    countAborts (handleToolCalls Demo.denySecondEnv "s"
      [Demo.tcRead, Demo.tcRead, Demo.tcRead] Demo.freshSt []).2 = 1 ∧
    countToolResults (handleToolCalls Demo.denySecondEnv "s"
      [Demo.tcRead, Demo.tcRead, Demo.tcRead] Demo.freshSt []).2 = 1 ∧
    activeOf (handleToolCalls Demo.denySecondEnv "s"
      [Demo.tcRead, Demo.tcRead, Demo.tcRead] Demo.freshSt []).1 "s" = false ∧
    toolMsgCount (handleToolCalls Demo.denySecondEnv "s"
      [Demo.tcRead, Demo.tcRead, Demo.tcRead] Demo.freshSt []).1 "s" =
      toolMsgCount Demo.freshSt "s" + 1 := by
  refine claim_C5_denial_short_circuits_turn Demo.denySecondEnv "s"
    (fun k _ => if k < 1 then .ok { action := "approve" } else .ok { action := "deny" })
    1 [Demo.tcRead, Demo.tcRead, Demo.tcRead] Demo.freshSt rfl ?_ ?_ (by decide)
    (by decide) (by decide) (by decide)
  · intro k req hk
    have hk0 : k = 0 := by omega
    subst hk0
    rfl
  · intro req
    rfl

/-- C4: once allow_all is recorded for a session, every later permission
request for it — whatever the tool and arguments — returns approved=true
with the state (asker invocation count included) completely unchanged,
so the asker is not consulted; and no orchestrator operation (tool-call
handling, a whole chat loop, aborting) ever clears the flag. -/
theorem claim_C4_allow_all_sticky (env : OrchEnv) (st : OrchState)
    (sid toolName message : String) (args : List (String × String))
    (responses : List ResponseChat)
    (h : allowAllOf st sid = true) :
    requestPermission env st sid toolName args = (true, st) ∧
    (∀ (tcs : List ToolCallObj) (evs : List OrchEvent),
      allowAllOf (handleToolCalls env sid tcs st evs).1 sid = true) ∧
    allowAllOf (processChatLoop env sid message responses st).1 sid = true ∧
    allowAllOf (abortSession st sid) sid = true ∧
    allowAllOf (abortAll st) sid = true := by
  refine ⟨by simp [requestPermission, h],
    fun tcs evs => handleToolCalls_allowAll_preserved env sid sid tcs st evs h,
    processChatLoop_allowAll_preserved env sid sid message responses st h,
    h, h⟩

theorem claim_C4_witness :
    allowAllOf { Demo.freshSt with sessionPermissions := [("s", true)] } "s" = true ∧
    requestPermission Demo.denySecondEnv
        { Demo.freshSt with sessionPermissions := [("s", true)] } "s" "FileDelete" [] =
      (true, { Demo.freshSt with sessionPermissions := [("s", true)] }) := by
  refine ⟨by decide, ?_⟩
  exact (claim_C4_allow_all_sticky Demo.denySecondEnv
    { Demo.freshSt with sessionPermissions := [("s", true)] }
    "s" "FileDelete" "m" [] [] (by decide)).1

/-- C10: the permission decision mapping sends every action string other
than approve, allow_all and deny to approved=false, leaving the state
untouched, so a malformed asker response behaves like a denial. -/
theorem claim_C10_unrecognized_action_denies (st : OrchState) (sid : String)
    (response : PermissionResponse) (toolName : String)
    (h1 : response.action ≠ "approve") (h2 : response.action ≠ "allow_all")
    (h3 : response.action ≠ "deny") :
    processPermissionResponse st sid response toolName = (false, st) := by
  simp [processPermissionResponse, h1, h2, h3]

theorem claim_C10_witness :
    processPermissionResponse Demo.freshSt "s" { action := "yes" } "FileRead" =
      (false, Demo.freshSt) :=
  claim_C10_unrecognized_action_denies Demo.freshSt "s" { action := "yes" } "FileRead"
    (by decide) (by decide) (by decide)

/-- C9: aborting is not isolated to one session.  Both the per-session
abortSession and the public abort mark the single shared LLM client
aborted (there is one clientAborted flag for all sessions, so any other
session's in-flight request is cancelled too); abortSession leaves other
sessions' liveness entries as they were, while the public abort clears
the liveness of every session at once. -/
theorem claim_C9_abort_shared_client (st : OrchState) (s1 s2 : String) :
    (abortSession st s1).clientAborted = true ∧
    (abortAll st).clientAborted = true ∧
    (s2 ≠ s1 → activeOf (abortSession st s1) s2 = activeOf st s2) ∧
    (∀ s : String, activeOf (abortAll st) s = false) := by
  refine ⟨rfl, rfl, fun h => activeOf_abortSession_other st s1 s2 h, fun s => ?_⟩
  simp [activeOf, abortAll, mapGet]

theorem claim_C9_witness :
    (abortSession Demo.freshSt "s").clientAborted = true ∧
    activeOf (abortSession Demo.freshSt "s") "other" = activeOf Demo.freshSt "other" := by
  refine ⟨(claim_C9_abort_shared_client Demo.freshSt "s" "other").1, ?_⟩
  exact (claim_C9_abort_shared_client Demo.freshSt "s" "other").2.2.1 (by decide)

/-- C6: stream aggregation seeds the accumulator with the first chunk
carrying a message, leaves it alone on message-less chunks, concatenates
(never replaces) later content deltas, and on the spec's
[Hel, lo, done] chunk sequence produces the content "Hello". -/
theorem claim_C6_stream_aggregation (chunk : ResponseChatStream)
    (c m : ChatMessage) (s : String) :
    (chunk.message = none → ∀ cur, updateCurrentMessage chunk cur = cur) ∧
    (chunk.message = some m → updateCurrentMessage chunk none = some m) ∧
    (chunk.message = some m → m.content = some s →
      ∃ c', updateCurrentMessage chunk (some c) = some c' ∧
        c'.content = some ((c.content.getD "") ++ s)) ∧
    (aggregateChunks Demo.helloChunks).bind (fun x => x.content) = some "Hello" := by
  refine ⟨fun h cur => ?_, fun h => ?_, fun h hc => ?_, by decide⟩
  · simp [updateCurrentMessage, h]
  · simp [updateCurrentMessage, h]
  · cases htc : m.tool_calls with
    | none =>
      refine ⟨{ c with content := some ((c.content.getD "") ++ s) }, ?_, rfl⟩
      simp [updateCurrentMessage, h, hc, htc]
    | some tcs =>
      refine ⟨{ { c with content := some ((c.content.getD "") ++ s) } with tool_calls := some tcs }, ?_, rfl⟩
      simp [updateCurrentMessage, h, hc, htc]

theorem claim_C6_witness :
    updateCurrentMessage
        { message := some { role := "assistant", content := some "lo" }, done := false }
        (some { role := "assistant", content := some "Hel" }) =
      some { role := "assistant", content := some "Hello" } := by
  obtain ⟨c', hc', hcon⟩ :=
    (claim_C6_stream_aggregation
        { message := some { role := "assistant", content := some "lo" }, done := false }
        { role := "assistant", content := some "Hel" }
        { role := "assistant", content := some "lo" } "lo").2.2.1 rfl rfl
  rw [hc']
  have : c' = { role := "assistant", content := some "Hello" } := by
    revert hc'
    simp [updateCurrentMessage]
    intro h
    exact h.symm
  rw [this]

/-- C3: requestPermission approves exactly when the session has
allow_all recorded, no asker is configured, or the asker resolves with
the action approve or allow_all; in every other case — deny, a rejected
asker promise, or an unrecognized action — it returns false.  The
embedding is a total function, reflecting that the try/catch makes the
method never throw to its caller. -/
theorem claim_C3_permission_decision (env : OrchEnv) (st : OrchState)
    (sid toolName : String) (args : List (String × String)) :
    (requestPermission env st sid toolName args).1 = true ↔
      (allowAllOf st sid = true ∨ env.asker = none ∨
        ∃ r, askOutcome env st sid toolName args = some (.ok r) ∧
          (r.action = "approve" ∨ r.action = "allow_all")) := by
  by_cases hall : allowAllOf st sid = true
  · simp [requestPermission, hall]
  · rw [requestPermission]
    rw [if_neg hall]
    cases hask : env.asker with
    | none => simp [hall, hask]
    | some ask =>
      simp only [askOutcome, hask, Option.map_some]
      cases hres : ask st.askCount
          { sessionId := sid, toolName := toolName, arguments := args,
            requestId := st.askCount } with
      | error e => simp [hall, hres]
      | ok r =>
        by_cases h1 : r.action = "approve"
        · simp [processPermissionResponse, hall, hres, h1]
        · by_cases h2 : r.action = "allow_all"
          · simp [processPermissionResponse, hall, hres, h1, h2]
          · by_cases h3 : r.action = "deny" <;>
              simp [processPermissionResponse, hall, hres, h1, h2, h3]

/-- C7 counterexample: in the concrete scenario of the claim — empty
session, an approved single tool call, then a plain reply — the history
ends with 5 appended messages, not 4: the loop also injects the
ContextSys system-prompt message on the first turn. -/
theorem claim_C7_counterexample :
    ((getMessages (processChatLoop Demo.approveEnv "s" "hi" Demo.chatScript
        Demo.freshSt).1 "s").getD []).length = 5 ∧
    ((getMessages (processChatLoop Demo.approveEnv "s" "hi" Demo.chatScript
        Demo.freshSt).1 "s").getD []).length ≠ 4 := by
  constructor <;> decide

/-- C7 (amended): for an empty active session with an always-approving
asker, a chat turn whose first reply carries exactly one tool call and
whose second reply carries none appends exactly 5 messages: the user
message, the injected system-prompt message, the assistant message with
the tool call, the tool-result message, and the final assistant
message. -/
theorem claim_C7_amended_history_shape (env : OrchEnv) (sid message : String)
    (a1 a2 : ChatMessage) (tc : ToolCallObj)
    (hasker : env.asker = some (fun _ _ => .ok { action := "approve" }))
    (htc1 : a1.tool_calls = some [tc])
    (htc2 : a2.tool_calls = none) :
    getMessages (processChatLoop env sid message
        [{ message := some a1 }, { message := some a2 }]
        { activeSessions := [(sid, true)], sessionPermissions := [],
          sessions := [(sid, [])], askCount := 0, clientAborted := false }).1 sid =
      some [{ role := "user", content := some message },
        { role := "system", content := some env.sysPrompt },
        a1,
        { role := "tool",
          content := some (env.execTool (extractToolCallData tc).1
            (extractToolCallData tc).2),
          tool_name := some (extractToolCallData tc).1 },
        a2] := by
  simp [processChatLoop, chatLoopAux, processNonStreamingResponse, handleToolCalls,
    requestPermission, executeTool, addMessage, getMessages, mapGet, mapSet,
    activeOf, allowAllOf, processPermissionResponse, responseHasToolCalls,
    hasker, htc1, htc2]

theorem claim_C7_amended_witness :
    getMessages (processChatLoop Demo.approveEnv "s" "hi" Demo.chatScript
        Demo.freshSt).1 "s" =
      some [{ role := "user", content := some "hi" },
        { role := "system", content := some "SYS" },
        Demo.callMsg,
        { role := "tool", content := some "tool-ok", tool_name := some "FileRead" },
        { role := "assistant", content := some "done" }] := by
  have h := claim_C7_amended_history_shape Demo.approveEnv "s" "hi" Demo.callMsg
    { role := "assistant", content := some "done" } Demo.tcRead rfl rfl rfl
  exact h

section PathLemmas

theorem driveTest_eq_false_of_head_slash (p : List Char) (h : p.head? = some '/') :
    driveTest p = false := by
  match p, h with
  | a :: t, h =>
    have ha : a = '/' := by simpa using h
    subst ha
    match t with
    | [] => rfl
    | [b] => rfl
    | b :: c :: r =>
      simp [driveTest, show ('/').isAlpha = false from rfl]

end PathLemmas

/-- C2: a relative candidate (one that is not POSIX-absolute and not in
Windows drive form, which the sandbox rejects in its own earlier step)
whose resolution against the root still contains the ascent marker ".."
is rejected with exactly the PathTraversal message, before any
outside-root, denylist or length check can fire. -/
theorem claim_C2_relative_traversal_error (cwd path : String)
    (hdrive : driveTest path.toList = false)
    (habs : isAbsolute path.toList = false)
    (hinf : includesSub (NodePath.resolve cwd.toList (normalize path.toList))
      ('.' :: '.' :: []) = true) :
    getSafePath cwd path = .err "Path contains traversal patterns" := by
  unfold getSafePath
  simp only [hdrive, habs, hinf, Bool.false_eq_true, if_false, Bool.true_or, if_true]

theorem claim_C2_witness :
    getSafePath "/root" "a..b" = .err "Path contains traversal patterns" :=
  claim_C2_relative_traversal_error "/root" "a..b" (by decide) (by decide) (by decide)

/-- C1 counterexample: the claim quantifies over every absolute path
outside the trusted root, but the code only compares string prefixes:
with root "/foo", the absolute candidate "/foo-evil/a.txt" lies outside
the root directory (it is neither the root nor beneath "/foo/"), yet
getSafePath accepts it, because "/foo" is a string prefix of
"/foo-evil/a.txt". -/
theorem claim_C1_counterexample :
    getSafePath "/foo" "/foo-evil/a.txt" = .ok "/foo-evil/a.txt" ∧
    isAbsolute ("/foo-evil/a.txt".toList) = true ∧
    strictlyWithinRoot "/foo" "/foo-evil/a.txt" = false := by
  refine ⟨by decide, by decide, by decide⟩

/-- C1 (amended): for every absolute candidate whose normalized form
does not have the root as a string prefix, getSafePath fails with the
OutsideRoot message ("Absolute path outside project directory"), and so
no such path ever succeeds; absolute paths outside the root directory
that merely share the root as a string prefix (a sibling directory such
as "/foo-evil" under root "/foo") are not rejected by this check. -/
theorem claim_C1_amended_outside_root (cwd path : String)
    (habs : isAbsolute path.toList = true)
    (hpre : (cwd.toList).isPrefixOf (normalize path.toList) = false) :
    getSafePath cwd path = .err "Absolute path outside project directory" := by
  have hdrive : driveTest path.toList = false := by
    refine driveTest_eq_false_of_head_slash path.toList ?_
    simpa [isAbsolute] using habs
  unfold getSafePath
  simp only [hdrive, habs, hpre, Bool.false_eq_true, if_false, if_true,
    Bool.not_false]

theorem claim_C1_witness :
    getSafePath "/foo" "/bar/x.txt" = .err "Absolute path outside project directory" :=
  claim_C1_amended_outside_root "/foo" "/bar/x.txt" (by decide) (by decide)

section IdemLemmas

/-- A canonical path segment: nonempty, not a dot segment, and free of
separators. -/
def cleanSeg (s : List Char) : Prop :=
  s ≠ [] ∧ s ≠ ['.'] ∧ s ≠ ['.', '.'] ∧ '/' ∉ s

theorem splitChar_ne_nil (c : Char) (l : List Char) : splitChar c l ≠ [] := by
  cases l with
  | nil => simp [splitChar]
  | cons x xs =>
    by_cases h : x = c
    · simp [splitChar, h]
    · simp only [splitChar, h, if_false]
      cases splitChar c xs <;> simp

theorem splitChar_cons_self (c : Char) (l : List Char) :
    splitChar c (c :: l) = [] :: splitChar c l := by
  simp [splitChar]

theorem splitChar_append_notmem (c : Char) (s : List Char) (l h : List Char)
    (t : List (List Char)) (hs : c ∉ s) (hl : splitChar c l = h :: t) :
    splitChar c (s ++ l) = (s ++ h) :: t := by
  induction s with
  | nil => simpa using hl
  | cons x s' ih =>
    have hx : ¬ x = c := fun he => hs (he ▸ List.mem_cons_self x s')
    have hs' : c ∉ s' := fun hm => hs (List.mem_cons_of_mem x hm)
    have ih' := ih hs'
    simp only [List.cons_append, splitChar, hx, if_false]
    have happ : s'.append l = s' ++ l := rfl
    rw [happ, ih']

theorem splitChar_notmem (c : Char) (s : List Char) (hs : c ∉ s) :
    splitChar c s = [s] := by
  have h := splitChar_append_notmem c s [] [] [] hs (by simp [splitChar])
  simpa using h

theorem splitChar_mem_notmem (c : Char) (l : List Char) :
    ∀ s ∈ splitChar c l, c ∉ s := by
  induction l with
  | nil =>
    intro s hs
    simp [splitChar] at hs
    simp [hs]
  | cons x xs ih =>
    intro s hs
    by_cases hx : x = c
    · rw [hx, splitChar_cons_self] at hs
      rcases List.mem_cons.mp hs with hs | hs
      · simp [hs]
      · exact ih s hs
    · simp only [splitChar, hx, if_false] at hs
      cases hsp : splitChar c xs with
      | nil => exact absurd hsp (splitChar_ne_nil c xs)
      | cons h0 t0 =>
        rw [hsp] at hs
        rcases List.mem_cons.mp hs with hs | hs
        · subst hs
          intro hm
          rcases List.mem_cons.mp hm with he | hm'
          · exact hx he.symm
          · exact ih h0 (hsp ▸ List.mem_cons_self h0 t0) hm'
        · exact ih s (hsp ▸ List.mem_cons_of_mem h0 hs)

theorem normStep_false_clean (acc : List (List Char)) (seg : List Char)
    (hacc : ∀ s ∈ acc, cleanSeg s) (hseg : '/' ∉ seg) :
    ∀ s ∈ normStep false acc seg, cleanSeg s := by
  intro s hs
  unfold normStep at hs
  by_cases h1 : seg = [] ∨ seg = ['.']
  · rw [if_pos h1] at hs
    exact hacc s hs
  · by_cases h2 : seg = ['.', '.']
    · cases hacc0 : acc with
      | nil =>
        rw [if_neg h1, if_pos h2] at hs
        simp only [hacc0] at hs
        simp at hs
      | cons last rest =>
        have hacc' : ∀ t ∈ last :: rest, cleanSeg t := hacc0 ▸ hacc
        rw [if_neg h1, if_pos h2] at hs
        simp only [hacc0] at hs
        simp only [Bool.false_eq_true, if_false] at hs
        by_cases h3 : last = ['.', '.']
        · rw [if_pos h3] at hs
          exact hacc' s hs
        · rw [if_neg h3] at hs
          exact hacc' s (List.mem_cons_of_mem last hs)
    · rw [if_neg h1, if_neg h2] at hs
      rcases List.mem_cons.mp hs with hs | hs
      · subst hs
        push_neg at h1
        exact ⟨h1.1, h1.2, h2, hseg⟩
      · exact hacc s hs

theorem foldl_normStep_clean (segs : List (List Char)) :
    ∀ (acc : List (List Char)), (∀ s ∈ acc, cleanSeg s) →
    (∀ s ∈ segs, '/' ∉ s) →
    ∀ s ∈ segs.foldl (normStep false) acc, cleanSeg s := by
  induction segs with
  | nil => intro acc hacc _ s hs; exact hacc s hs
  | cons seg rest ih =>
    intro acc hacc hsegs s hs
    rw [List.foldl_cons] at hs
    refine ih (normStep false acc seg)
      (normStep_false_clean acc seg hacc (hsegs seg (List.mem_cons_self seg rest)))
      (fun t ht => hsegs t (List.mem_cons_of_mem seg ht)) s hs

theorem foldl_normStep_fix (ab : Bool) (segs : List (List Char)) :
    ∀ (acc : List (List Char)), (∀ s ∈ segs, cleanSeg s) →
    segs.foldl (normStep ab) acc = segs.reverse ++ acc := by
  induction segs with
  | nil => intro acc _; simp
  | cons seg rest ih =>
    intro acc hclean
    obtain ⟨h1, h2, h3, _⟩ := hclean seg (List.mem_cons_self seg rest)
    rw [List.foldl_cons]
    have hstep : normStep ab acc seg = seg :: acc := by
      unfold normStep
      rw [if_neg (by simp [h1, h2]), if_neg h3]
    rw [hstep, ih (seg :: acc) (fun t ht => hclean t (List.mem_cons_of_mem seg ht))]
    simp

theorem joinSegs_ne_nil (segs : List (List Char)) (h0 : segs ≠ [])
    (h : ∀ s ∈ segs, cleanSeg s) : joinSegs segs ≠ [] := by
  match segs, h0 with
  | [s], _ =>
    have := (h s (List.mem_cons_self s [])).1
    simpa [joinSegs] using this
  | s :: s2 :: rest, _ =>
    have := (h s (List.mem_cons_self s (s2 :: rest))).1
    simp only [joinSegs]
    intro hcontra
    rcases List.append_eq_nil.mp hcontra with ⟨hs, _⟩
    exact this hs

theorem joinSegs_getLast_ne_slash (segs : List (List Char)) (h0 : segs ≠ [])
    (hclean : ∀ s ∈ segs, cleanSeg s) :
    ∃ x, (joinSegs segs).getLast? = some x ∧ x ≠ '/' := by
  match segs, h0 with
  | [s], _ =>
    obtain ⟨hne, _, _, hns⟩ := hclean s (List.mem_cons_self s [])
    refine ⟨s.getLast hne, ?_, ?_⟩
    · simpa [joinSegs] using List.getLast?_eq_getLast_of_ne_nil hne
    · intro he
      exact hns (he ▸ List.getLast_mem hne)
  | s :: s2 :: rest, _ =>
    obtain ⟨x, hx, hxs⟩ := joinSegs_getLast_ne_slash (s2 :: rest) (List.cons_ne_nil _ _)
      (fun t ht => hclean t (List.mem_cons_of_mem s ht))
    refine ⟨x, ?_, hxs⟩
    have hne2 : joinSegs (s2 :: rest) ≠ [] :=
      joinSegs_ne_nil (s2 :: rest) (List.cons_ne_nil _ _)
        (fun t ht => hclean t (List.mem_cons_of_mem s ht))
    have hj : joinSegs (s :: s2 :: rest) = s ++ '/' :: joinSegs (s2 :: rest) := rfl
    rw [hj, List.getLast?_append_cons]
    calc ('/' :: joinSegs (s2 :: rest)).getLast?
        = (['/'] ++ joinSegs (s2 :: rest)).getLast? := rfl
      _ = (joinSegs (s2 :: rest)).getLast? := List.getLast?_append_of_ne_nil ['/'] hne2
      _ = some x := hx

theorem splitChar_joinSegs (segs : List (List Char)) (h0 : segs ≠ [])
    (hns : ∀ s ∈ segs, '/' ∉ s) :
    splitChar '/' (joinSegs segs) = segs := by
  match segs, h0 with
  | [s], _ =>
    rw [joinSegs]
    exact splitChar_notmem '/' s (hns s (List.mem_cons_self s []))
  | s :: s2 :: rest, _ =>
    have ih := splitChar_joinSegs (s2 :: rest) (List.cons_ne_nil _ _)
      (fun t ht => hns t (List.mem_cons_of_mem s ht))
    have hj : joinSegs (s :: s2 :: rest) = s ++ '/' :: joinSegs (s2 :: rest) := rfl
    rw [hj]
    have h1 : splitChar '/' ('/' :: joinSegs (s2 :: rest)) = [] :: s2 :: rest := by
      rw [splitChar_cons_self, ih]
    exact (splitChar_append_notmem '/' s ('/' :: joinSegs (s2 :: rest)) [] (s2 :: rest)
      (hns s (List.mem_cons_self s (s2 :: rest))) h1).trans (by simp)

theorem splitChar_joinSegs_trail (segs : List (List Char)) (h0 : segs ≠ [])
    (hns : ∀ s ∈ segs, '/' ∉ s) :
    splitChar '/' (joinSegs segs ++ ['/']) = segs ++ [[]] := by
  match segs, h0 with
  | [s], _ =>
    rw [joinSegs]
    have h1 : splitChar '/' ['/'] = [] :: [[]] := by decide
    exact (splitChar_append_notmem '/' s ['/'] [] [[]]
      (hns s (List.mem_cons_self s [])) h1).trans (by simp)
  | s :: s2 :: rest, _ =>
    have ih := splitChar_joinSegs_trail (s2 :: rest) (List.cons_ne_nil _ _)
      (fun t ht => hns t (List.mem_cons_of_mem s ht))
    have hj : joinSegs (s :: s2 :: rest) = s ++ '/' :: joinSegs (s2 :: rest) := rfl
    rw [hj]
    have h1 : splitChar '/' ('/' :: (joinSegs (s2 :: rest) ++ ['/'])) =
        [] :: ((s2 :: rest) ++ [[]]) := by
      rw [splitChar_cons_self, ih]
    have h2 := splitChar_append_notmem '/' s ('/' :: (joinSegs (s2 :: rest) ++ ['/']))
      [] ((s2 :: rest) ++ [[]]) (hns s (List.mem_cons_self s (s2 :: rest))) h1
    rw [List.append_assoc, List.cons_append]
    exact h2.trans (by simp)

theorem normalize_unfold (p : List Char) (hp : p ≠ []) :
    normalize p =
      if normalizeString p (!isAbsolute p) = [] then
        (if isAbsolute p then ['/']
         else if p.getLast? = some '/' then ['.', '/'] else ['.'])
      else
        (if isAbsolute p then
          '/' :: (if p.getLast? = some '/' then normalizeString p (!isAbsolute p) ++ ['/']
                  else normalizeString p (!isAbsolute p))
        else (if p.getLast? = some '/' then normalizeString p (!isAbsolute p) ++ ['/']
              else normalizeString p (!isAbsolute p))) := by
  unfold NodePath.normalize
  rw [if_neg hp]

theorem normalizeString_false_canon (p : List Char) :
    ∃ segs, (∀ s ∈ segs, cleanSeg s) ∧ normalizeString p false = joinSegs segs := by
  refine ⟨((splitChar '/' p).foldl (normStep false) []).reverse, ?_, rfl⟩
  intro s hs
  rw [List.mem_reverse] at hs
  exact foldl_normStep_clean (splitChar '/' p) [] (by simp)
    (splitChar_mem_notmem '/' p) s hs

theorem normalize_slash : normalize ['/'] = ['/'] := by decide

theorem isAbsolute_cons_slash (l : List Char) : isAbsolute ('/' :: l) = true := by
  simp [isAbsolute]

theorem normalize_canon_noTrail (segs : List (List Char)) (h0 : segs ≠ [])
    (hclean : ∀ s ∈ segs, cleanSeg s) :
    normalize ('/' :: joinSegs segs) = '/' :: joinSegs segs := by
  have hnnil : joinSegs segs ≠ [] := joinSegs_ne_nil segs h0 hclean
  have hns : ∀ s ∈ segs, '/' ∉ s := fun s hs => (hclean s hs).2.2.2
  obtain ⟨x, hx, hxs⟩ := joinSegs_getLast_ne_slash segs h0 hclean
  have hlast : ('/' :: joinSegs segs).getLast? = some x := by
    calc ('/' :: joinSegs segs).getLast?
        = (['/'] ++ joinSegs segs).getLast? := rfl
      _ = (joinSegs segs).getLast? := List.getLast?_append_of_ne_nil ['/'] hnnil
      _ = some x := hx
  have htrail : ¬ (('/' :: joinSegs segs).getLast? = some '/') := by
    rw [hlast]
    intro hcon
    exact hxs (by simpa using hcon)
  have hr : normalizeString ('/' :: joinSegs segs) false = joinSegs segs := by
    unfold normalizeString
    rw [splitChar_cons_self, splitChar_joinSegs segs h0 hns, List.foldl_cons]
    have hstep : normStep false [] [] = [] := by decide
    rw [hstep, foldl_normStep_fix false segs [] hclean]
    simp
  rw [normalize_unfold _ (List.cons_ne_nil _ _)]
  rw [isAbsolute_cons_slash, Bool.not_true, hr]
  rw [if_neg hnnil, if_pos rfl, if_neg htrail]

theorem normalize_canon_trail (segs : List (List Char)) (h0 : segs ≠ [])
    (hclean : ∀ s ∈ segs, cleanSeg s) :
    normalize ('/' :: (joinSegs segs ++ ['/'])) = '/' :: (joinSegs segs ++ ['/']) := by
  have hnnil : joinSegs segs ≠ [] := joinSegs_ne_nil segs h0 hclean
  have hns : ∀ s ∈ segs, '/' ∉ s := fun s hs => (hclean s hs).2.2.2
  have htrail : ('/' :: (joinSegs segs ++ ['/'])).getLast? = some '/' := by
    calc ('/' :: (joinSegs segs ++ ['/'])).getLast?
        = (['/'] ++ (joinSegs segs ++ ['/'])).getLast? := rfl
      _ = (joinSegs segs ++ ['/']).getLast? :=
          List.getLast?_append_of_ne_nil ['/'] (by simp)
      _ = some '/' := by simp
  have hr : normalizeString ('/' :: (joinSegs segs ++ ['/'])) false = joinSegs segs := by
    unfold normalizeString
    rw [splitChar_cons_self, splitChar_joinSegs_trail segs h0 hns, List.foldl_cons]
    have hstep : normStep false [] [] = [] := by decide
    rw [hstep, List.foldl_append, foldl_normStep_fix false segs [] hclean]
    have hstep2 : normStep false (segs.reverse ++ []) [] = segs.reverse ++ [] := by
      unfold normStep
      rw [if_pos (Or.inl rfl)]
    simp only [List.foldl_cons, List.foldl_nil, hstep2]
    simp
  rw [normalize_unfold _ (List.cons_ne_nil _ _)]
  rw [isAbsolute_cons_slash, Bool.not_true, hr]
  rw [if_neg hnnil, if_pos rfl, if_pos htrail]

theorem normalize_abs_form (p : List Char) (habs : isAbsolute p = true) :
    normalize p = ['/'] ∨
    ∃ segs, (∀ s ∈ segs, cleanSeg s) ∧ segs ≠ [] ∧
      (normalize p = '/' :: joinSegs segs ∨
       normalize p = '/' :: (joinSegs segs ++ ['/'])) := by
  have hp : p ≠ [] := by
    intro he
    rw [he] at habs
    simp [isAbsolute] at habs
  obtain ⟨segs, hclean, heq⟩ := normalizeString_false_canon p
  rw [normalize_unfold p hp, habs, Bool.not_true, heq]
  by_cases hsegs : segs = []
  · subst hsegs
    left
    simp [joinSegs]
  · right
    have hnnil := joinSegs_ne_nil segs hsegs hclean
    rw [if_neg hnnil, if_pos rfl]
    refine ⟨segs, hclean, hsegs, ?_⟩
    by_cases htr : p.getLast? = some '/'
    · right
      rw [if_pos htr]
    · left
      rw [if_neg htr]

theorem resolve_abs_eq (cwd p : List Char) (hcwd : isAbsolute cwd = true) :
    NodePath.resolve cwd p =
      '/' :: normalizeString
        (if isAbsolute p then p ++ ['/']
         else cwd ++ '/' :: (if p = [] then [] else p ++ ['/'])) false := by
  have hcne : cwd ≠ [] := by
    intro he
    rw [he] at hcwd
    simp [isAbsolute] at hcwd
  by_cases hap : isAbsolute p = true
  · simp [NodePath.resolve, hcwd, hap]
  · simp [NodePath.resolve, hcwd, hap, hcne]

theorem resolve_abs_form (cwd p : List Char) (hcwd : isAbsolute cwd = true) :
    ∃ segs, (∀ s ∈ segs, cleanSeg s) ∧
      NodePath.resolve cwd p = '/' :: joinSegs segs := by
  obtain ⟨segs, hclean, heq⟩ := normalizeString_false_canon
    (if isAbsolute p then p ++ ['/'] else cwd ++ '/' :: (if p = [] then [] else p ++ ['/']))
  exact ⟨segs, hclean, by rw [resolve_abs_eq cwd p hcwd, heq]⟩

theorem normalize_canon_cons (segs : List (List Char))
    (hclean : ∀ s ∈ segs, cleanSeg s) :
    normalize ('/' :: joinSegs segs) = '/' :: joinSegs segs := by
  by_cases h0 : segs = []
  · subst h0
    simpa [joinSegs] using normalize_slash
  · exact normalize_canon_noTrail segs h0 hclean

theorem normalize_idem_of_abs (p : List Char) (habs : isAbsolute p = true) :
    normalize (normalize p) = normalize p ∧ isAbsolute (normalize p) = true := by
  rcases normalize_abs_form p habs with h | ⟨segs, hclean, h0, h | h⟩
  · rw [h]
    exact ⟨normalize_slash, by simp [isAbsolute]⟩
  · rw [h]
    exact ⟨normalize_canon_noTrail segs h0 hclean, isAbsolute_cons_slash _⟩
  · rw [h]
    exact ⟨normalize_canon_trail segs h0 hclean, isAbsolute_cons_slash _⟩

theorem resolve_idem_of_abs (cwd p : List Char) (hcwd : isAbsolute cwd = true) :
    normalize (NodePath.resolve cwd p) = NodePath.resolve cwd p ∧
    isAbsolute (NodePath.resolve cwd p) = true := by
  obtain ⟨segs, hclean, heq⟩ := resolve_abs_form cwd p hcwd
  rw [heq]
  exact ⟨normalize_canon_cons segs hclean, isAbsolute_cons_slash _⟩

theorem toList_mk (l : List Char) : (String.mk l).toList = l := rfl

theorem getSafePath_ok_inv (cwd p q : String) (h : getSafePath cwd p = .ok q) :
    driveTest p.toList = false ∧
    ((isAbsolute p.toList = true ∧
       q.toList = normalize p.toList ∧
       cwd.toList.isPrefixOf (normalize p.toList) = true ∧
       isPathSafe (normalize p.toList) = true ∧
       ¬ ((normalize p.toList).length > 500)) ∨
     (isAbsolute p.toList = false ∧
       q.toList = NodePath.resolve cwd.toList (normalize p.toList) ∧
       cwd.toList.isPrefixOf (NodePath.resolve cwd.toList (normalize p.toList)) = true ∧
       isPathSafe (NodePath.resolve cwd.toList (normalize p.toList)) = true ∧
       ¬ ((NodePath.resolve cwd.toList (normalize p.toList)).length > 500))) := by
  simp only [getSafePath] at h
  split at h
  · exact absurd h (by simp)
  · rename_i hdrive
    refine ⟨by simpa using hdrive, ?_⟩
    split at h
    · rename_i habs
      left
      split at h
      · exact absurd h (by simp)
      · rename_i hpre
        split at h
        · exact absurd h (by simp)
        · rename_i hsafe
          split at h
          · exact absurd h (by simp)
          · rename_i hlen
            have hq : String.mk (normalize p.toList) = q := by
              simpa using h
            refine ⟨habs, by rw [← hq, toList_mk], by simpa using hpre,
              by simpa using hsafe, hlen⟩
    · rename_i habs
      right
      split at h
      · exact absurd h (by simp)
      · rename_i htrav
        split at h
        · exact absurd h (by simp)
        · rename_i hpre
          split at h
          · exact absurd h (by simp)
          · rename_i hsafe
            split at h
            · exact absurd h (by simp)
            · rename_i hlen
              have hq : String.mk (NodePath.resolve cwd.toList (normalize p.toList)) = q := by
                simpa using h
              refine ⟨by simpa using habs, by rw [← hq, toList_mk],
                by simpa using hpre, by simpa using hsafe, hlen⟩

theorem getSafePath_ok_build (cwd q : String)
    (hdr : driveTest q.toList = false)
    (habs : isAbsolute q.toList = true)
    (hnorm : normalize q.toList = q.toList)
    (hpre : cwd.toList.isPrefixOf q.toList = true)
    (hsafe : isPathSafe q.toList = true)
    (hlen : ¬ (q.toList.length > 500)) :
    getSafePath cwd q = .ok q := by
  simp only [getSafePath, hdr, habs, hnorm, hpre, hsafe, Bool.false_eq_true, if_false,
    Bool.not_true, if_true, Bool.true_eq_false]
  rw [if_neg hlen]
  rfl

end IdemLemmas

/-- C8: getSafePath is idempotent on its successes: whenever resolving a
candidate against an absolute root succeeds with canonical path q,
resolving q itself succeeds and returns q again. -/
theorem claim_C8_resolution_idempotent (cwd p q : String)
    (hcwd : isAbsolute cwd.toList = true)
    (h : getSafePath cwd p = .ok q) :
    getSafePath cwd q = .ok q := by
  obtain ⟨hdr, hcase⟩ := getSafePath_ok_inv cwd p q h
  rcases hcase with ⟨habs, hqR, hpre, hsafe, hlen⟩ | ⟨habs, hqR, hpre, hsafe, hlen⟩
  · obtain ⟨hidem, habsR⟩ := normalize_idem_of_abs p.toList habs
    refine getSafePath_ok_build cwd q ?_ ?_ ?_ ?_ ?_ ?_
    · refine driveTest_eq_false_of_head_slash _ ?_
      rw [hqR]
      simpa [isAbsolute] using habsR
    · rw [hqR]
      exact habsR
    · rw [hqR]
      exact hidem
    · rw [hqR]
      exact hpre
    · rw [hqR]
      exact hsafe
    · rw [hqR]
      exact hlen
  · obtain ⟨hidem, habsR⟩ := resolve_idem_of_abs cwd.toList (normalize p.toList) hcwd
    refine getSafePath_ok_build cwd q ?_ ?_ ?_ ?_ ?_ ?_
    · refine driveTest_eq_false_of_head_slash _ ?_
      rw [hqR]
      simpa [isAbsolute] using habsR
    · rw [hqR]
      exact habsR
    · rw [hqR]
      exact hidem
    · rw [hqR]
      exact hpre
    · rw [hqR]
      exact hsafe
    · rw [hqR]
      exact hlen

theorem claim_C8_witness :
    getSafePath "/root" "x.txt" = .ok "/root/x.txt" ∧
    getSafePath "/root" "/root/x.txt" = .ok "/root/x.txt" :=
  ⟨by decide, claim_C8_resolution_idempotent "/root" "x.txt" "/root/x.txt"
    (by decide) (by decide)⟩
